import Mathlib

set_option maxRecDepth 8192

/-!
Shallow embedding of vscode-textmate's `src/main.ts`: the `Registry` class
(memoized per-scope grammar loading and the fixpoint breadth-first dependency
resolution of `_loadGrammar`) and the `MetadataConsts` bit layout.

External collaborators that live outside the provided source tree
(`grammar.ts`'s raw-grammar representation and rule-tree scans, `registry.ts`'s
`SyncRegistry` store) are modelled from the spec, and are marked as such in
their doc comments.

The TypeScript code is single-threaded with run-to-completion semantics:
control can only change hands at `await` points.  The synchronous segment of
`_loadSingleGrammar` (cache check, starting `_doLoadSingleGrammar` — which
invokes the external loader before its first `await` — and registering the
in-flight promise) contains no `await`, so it is modelled as one atomic state
transition; an arbitrary interleaving of callers is a sequence of such
transitions.  The number of times the caller-supplied loader is invoked is
tracked in a ghost field `loadCount`.
-/

/-- ScopeDependency (from `grammar.ts`, re-exported through `main.ts`): either
the whole grammar of a scope (`FullScopeDependency scopeName`) or one named
rule inside a scope (`PartialScopeDependency scopeName includePath`).  The
canonical dedup key of a partial dependency (`toKey`) is derived from both
fields; we use the pair itself. -/
inductive ScopeDependency where
  | full (scopeName : String)
  | part (scopeName : String) (includePath : String)
  deriving DecidableEq, Repr

/-- The scope name of a dependency, as read by `_loadGrammar`. -/
def ScopeDependency.scopeName : ScopeDependency → String
  | .full s => s
  | .part s _ => s

/-- Modelled from the spec: `grammar.ts` (absent from the source tree) owns the
raw-grammar representation and the rule-tree scans.  Per spec §4.2 the scan
logic is an external grammar-introspection capability, so a raw grammar is
represented abstractly by its scope name together with the outcome of the two
scans: `allDeps` is what a whole-grammar scan discovers, and `ruleDeps` maps an
include path to what the subtree scan rooted there discovers. -/
structure RawGrammar where
  scopeName : String
  allDeps : List ScopeDependency
  ruleDeps : List (String × List ScopeDependency)
  deriving DecidableEq, Repr

/-- ScopeDependencyCollector (from `grammar.ts`): per-iteration accumulator of
discovered `full` scope names and `partial` `(scopeName, includePath)` keys.
Modelled from the spec: the collector performs no dedup itself (§4.2). -/
structure ScopeDependencyCollector where
  full : List String
  partialDeps : List (String × String)
  deriving DecidableEq, Repr

/-- A fresh, empty collector (the `ScopeDependencyCollector` constructor). -/
def ScopeDependencyCollector.empty : ScopeDependencyCollector :=
  { full := [], partialDeps := [] }

/-- Record one discovered dependency (appends; no dedup, per spec §4.2). -/
def ScopeDependencyCollector.add (c : ScopeDependencyCollector) :
    ScopeDependency → ScopeDependencyCollector
  | .full s => { c with full := c.full ++ [s] }
  | .part s i => { c with partialDeps := c.partialDeps ++ [(s, i)] }

/-- Modelled from the spec: `collectDependencies(result, grammar)` records every
dependency discovered by the whole-grammar scan into the collector. -/
def collectDependencies (result : ScopeDependencyCollector) (grammar : RawGrammar) :
    ScopeDependencyCollector :=
  grammar.allDeps.foldl ScopeDependencyCollector.add result

/-- Modelled from the spec: `collectSpecificDependencies(result, grammar, include)`
records every dependency discovered by the subtree scan rooted at the named
rule `includePath` (nothing when the grammar has no such rule). -/
def collectSpecificDependencies (result : ScopeDependencyCollector)
    (grammar : RawGrammar) (includePath : String) : ScopeDependencyCollector :=
  ((grammar.ruleDeps.lookup includePath).getD []).foldl ScopeDependencyCollector.add result

/-- Modelled from the spec: the `SyncRegistry` grammar store (`registry.ts`,
absent from the source tree), reduced to the interface `main.ts` uses — the
registered raw grammars and the per-scope injection lists, both keyed by scope
name. -/
structure SyncRegistryState where
  grammars : List (String × RawGrammar)
  injections : List (String × List String)
  deriving DecidableEq, Repr

/-- Modelled from the spec: `SyncRegistry.lookup(scopeName)` returns the
registered grammar for a scope, when present. -/
def SyncRegistryState.lookup (st : SyncRegistryState) (scopeName : String) :
    Option RawGrammar :=
  st.grammars.lookup scopeName

/-- Modelled from the spec: `SyncRegistry.injections(scopeName)` returns the
injection scope list registered for a scope, when present. -/
def SyncRegistryState.injectionsFor (st : SyncRegistryState) (scopeName : String) :
    Option (List String) :=
  st.injections.lookup scopeName

/-- Modelled from the spec: `SyncRegistry.addGrammar(grammar, injections)`
registers the grammar under its own scope name and, when an injection list is
supplied, registers it for that scope name too. -/
def SyncRegistryState.addGrammar (st : SyncRegistryState) (grammar : RawGrammar)
    (injections : Option (List String)) : SyncRegistryState :=
  { grammars := (grammar.scopeName, grammar) :: st.grammars
    injections :=
      match injections with
      | some l => (grammar.scopeName, l) :: st.injections
      | none => st.injections }

/-- RegistryOptions (`main.ts` lines 41–46): the caller-supplied locator.  The
asynchronous loader is modelled as a pure function of the scope name (one fixed
outcome per scope), and the optional `getInjections` callback likewise. -/
structure RegistryOptions where
  loadGrammar : String → Option RawGrammar
  getInjections : Option (String → List String)

/-- The default locator of the `Registry` constructor:
`{ loadGrammar: () => null }`. -/
def defaultRegistryOptions : RegistryOptions :=
  { loadGrammar := fun _ => none, getInjections := none }

/-- The mutable state of one `Registry` instance: the `SyncRegistry` store, the
`_ensureGrammarCache` (modelled as the set of scope names holding an in-flight
or settled promise), and the ghost counter of loader invocations per scope. -/
structure RegistryState where
  syncRegistry : SyncRegistryState
  ensureGrammarCache : List String
  loadCount : String → Nat

/-- The state a freshly constructed `Registry` starts in: empty store, empty
`_ensureGrammarCache`, loader never invoked. -/
def RegistryState.init : RegistryState :=
  { syncRegistry := { grammars := [], injections := [] }
    ensureGrammarCache := []
    loadCount := fun _ => 0 }

/-- `Registry._doLoadSingleGrammar` (`main.ts` lines 126–132): invoke the
caller-supplied loader (counted by the ghost field); if it yields a grammar,
compute the injections via the optional `getInjections` callback and register
both with the store. -/
def doLoadSingleGrammar (locator : RegistryOptions) (st : RegistryState)
    (scopeName : String) : RegistryState :=
  let counted : RegistryState :=
    { st with loadCount := fun s => if s = scopeName then st.loadCount s + 1 else st.loadCount s }
  match locator.loadGrammar scopeName with
  | some grammar =>
      let injections := locator.getInjections.map (fun f => f scopeName)
      { counted with syncRegistry := counted.syncRegistry.addGrammar grammar injections }
  | none => counted

/-- `Registry._loadSingleGrammar` (`main.ts` lines 134–139): if the scope has no
entry in `_ensureGrammarCache`, start `_doLoadSingleGrammar` and register the
in-flight promise; otherwise do nothing (the caller attaches to the cached
promise).  The check-and-register segment contains no `await`, so the whole
call is one atomic transition. -/
def loadSingleGrammar (locator : RegistryOptions) (st : RegistryState)
    (scopeName : String) : RegistryState :=
  if st.ensureGrammarCache.contains scopeName then st
  else
    let st' := doLoadSingleGrammar locator st scopeName
    { st' with ensureGrammarCache := scopeName :: st'.ensureGrammarCache }

/-- `Registry._collectDependenciesForDep` (`main.ts` lines 141–162): look the
dependency's scope up in the store; when absent, abort with an error naming the
initial scope if the dependency is the initial scope, else drop it silently;
when present, run the whole-grammar scan for a full dependency or the subtree
scan for a partial one, then add a full dependency for every scope in the
store's injection list for this scope. -/
def collectDependenciesForDep (reg : SyncRegistryState) (initialScopeName : String)
    (result : ScopeDependencyCollector) (dep : ScopeDependency) :
    Except String ScopeDependencyCollector :=
  match reg.lookup dep.scopeName with
  | none =>
      if dep.scopeName = initialScopeName then
        .error ("No grammar provided for <" ++ initialScopeName ++ ">")
      else
        .ok result
  | some grammar =>
      let result :=
        match dep with
        | .full _ => collectDependencies result grammar
        | .part _ includePath => collectSpecificDependencies result grammar includePath
      let result :=
        match reg.injectionsFor dep.scopeName with
        | some injections => injections.foldl (fun r inj => r.add (.full inj)) result
        | none => result
      .ok result

/-- The `for (const dep of q)` loop of `_loadGrammar` (lines 178–181): fold
`_collectDependenciesForDep` over the batch, aborting on the first error. -/
def collectLoop (reg : SyncRegistryState) (initialScopeName : String)
    (result : ScopeDependencyCollector) :
    List ScopeDependency → Except String ScopeDependencyCollector
  | [] => .ok result
  | dep :: rest =>
      match collectDependenciesForDep reg initialScopeName result dep with
      | .error e => .error e
      | .ok result' => collectLoop reg initialScopeName result' rest

/-- The `for (const dep of deps.full)` loop of `_loadGrammar` (lines 183–190):
skip scopes already in `seenFullScopeRequests`, else mark them seen and push
the dependency onto the next frontier. -/
def pushFullDeps : List String → List String → List ScopeDependency →
    List String × List ScopeDependency
  | [], seenFull, q => (seenFull, q)
  | s :: rest, seenFull, q =>
      if seenFull.contains s then pushFullDeps rest seenFull q
      else pushFullDeps rest (seenFull ++ [s]) (q ++ [ScopeDependency.full s])

/-- The `for (const dep of deps.partial)` loop of `_loadGrammar` (lines
192–203): skip scopes already fully seen, skip keys already in
`seenPartialScopeRequests`, else mark the key seen and push the dependency. -/
def pushPartialDeps (seenFull : List String) :
    List (String × String) → List (String × String) → List ScopeDependency →
    List (String × String) × List ScopeDependency
  | [], seenPartial, q => (seenPartial, q)
  | k :: rest, seenPartial, q =>
      if seenFull.contains k.1 then pushPartialDeps seenFull rest seenPartial q
      else if seenPartial.contains k then pushPartialDeps seenFull rest seenPartial q
      else pushPartialDeps seenFull rest (seenPartial ++ [k]) (q ++ [ScopeDependency.part k.1 k.2])

/-- The loop state of `_loadGrammar`: the registry state together with the two
seen-sets and the current frontier `Q`. -/
structure LoopState where
  reg : RegistryState
  seenFullScopeRequests : List String
  seenPartialScopeRequests : List (String × String)
  Q : List ScopeDependency

/-- One iteration of the `while (Q.length > 0)` loop of `_loadGrammar` (lines
172–204): load every scope of the batch through the cache, scan the batch for
new dependencies (aborting on a missing initial scope), then dedup-push the
discovered full and partial dependencies onto the next frontier. -/
def loadGrammarIteration (locator : RegistryOptions) (initialScopeName : String)
    (st : LoopState) : Except String LoopState :=
  let reg1 := st.Q.foldl (fun r d => loadSingleGrammar locator r d.scopeName) st.reg
  match collectLoop reg1.syncRegistry initialScopeName ScopeDependencyCollector.empty st.Q with
  | .error e => .error e
  | .ok deps =>
      let fullRes := pushFullDeps deps.full st.seenFullScopeRequests []
      let partRes := pushPartialDeps fullRes.1 deps.partialDeps st.seenPartialScopeRequests fullRes.2
      .ok { reg := reg1
            seenFullScopeRequests := fullRes.1
            seenPartialScopeRequests := partRes.1
            Q := partRes.2 }

/-- The initial loop state of `_loadGrammar` (lines 166–170):
`seenFullScopeRequests = {initialScopeName}`, no partial requests seen, and the
frontier holding the single full dependency on the initial scope. -/
def initLoopState (reg : RegistryState) (initialScopeName : String) : LoopState :=
  { reg := reg
    seenFullScopeRequests := [initialScopeName]
    seenPartialScopeRequests := []
    Q := [ScopeDependency.full initialScopeName] }

/-- The `while` loop of `_loadGrammar`, with explicit fuel: `none` means the
fuel ran out before the frontier emptied, `some (.error e)` that an iteration
aborted, and `some (.ok reg)` that the frontier emptied with final registry
state `reg` (after which the code returns `grammarForScopeName`). -/
def loadGrammarLoop (locator : RegistryOptions) (initialScopeName : String) :
    Nat → LoopState → Option (Except String RegistryState)
  | 0, st => if st.Q.isEmpty then some (.ok st.reg) else none
  | fuel + 1, st =>
      if st.Q.isEmpty then some (.ok st.reg)
      else
        match loadGrammarIteration locator initialScopeName st with
        | .error e => some (.error e)
        | .ok st' => loadGrammarLoop locator initialScopeName fuel st'

/-- `Registry._loadGrammar` / the public `Registry.loadGrammar` (lines 122–124
and 164–207), run from a given registry state with the given fuel.  The initial
language and configuration only parameterize the final `grammarForScopeName`
handle and play no role in resolution, so they are not modelled. -/
def loadGrammarRun (locator : RegistryOptions) (reg : RegistryState)
    (initialScopeName : String) (fuel : Nat) : Option (Except String RegistryState) :=
  loadGrammarLoop locator initialScopeName fuel (initLoopState reg initialScopeName)

/-- The public `Registry.addGrammar` (`main.ts` lines 212–215): register the
supplied raw grammar and injection list with the store, then request the
grammar handle for `rawGrammar.scopeName` from the store.  The handle request
is modelled by returning the scope name passed to `grammarForScopeName`. -/
def registryAddGrammar (st : RegistryState) (rawGrammar : RawGrammar)
    (injections : List String) : RegistryState × String :=
  ({ st with syncRegistry := st.syncRegistry.addGrammar rawGrammar (some injections) },
   rawGrammar.scopeName)

/-! ## Metadata codec (`main.ts` lines 257–289) -/

/-- MetadataConsts.LANGUAGEID_MASK (`main.ts` line 278). -/
def MetadataConsts.LANGUAGEID_MASK : Nat := 0b00000000000000000000000011111111

/-- MetadataConsts.TOKEN_TYPE_MASK (`main.ts` line 279). -/
def MetadataConsts.TOKEN_TYPE_MASK : Nat := 0b00000000000000000000011100000000

/-- MetadataConsts.FONT_STYLE_MASK (`main.ts` line 280). -/
def MetadataConsts.FONT_STYLE_MASK : Nat := 0b00000000000000000011100000000000

/-- MetadataConsts.FOREGROUND_MASK (`main.ts` line 281). -/
def MetadataConsts.FOREGROUND_MASK : Nat := 0b00000000011111111100000000000000

/-- MetadataConsts.BACKGROUND_MASK (`main.ts` line 282). -/
def MetadataConsts.BACKGROUND_MASK : Nat := 0b11111111100000000000000000000000

/-- MetadataConsts.LANGUAGEID_OFFSET (`main.ts` line 284). -/
def MetadataConsts.LANGUAGEID_OFFSET : Nat := 0

/-- MetadataConsts.TOKEN_TYPE_OFFSET (`main.ts` line 285). -/
def MetadataConsts.TOKEN_TYPE_OFFSET : Nat := 8

/-- MetadataConsts.FONT_STYLE_OFFSET (`main.ts` line 286). -/
def MetadataConsts.FONT_STYLE_OFFSET : Nat := 11

/-- MetadataConsts.FOREGROUND_OFFSET (`main.ts` line 287). -/
def MetadataConsts.FOREGROUND_OFFSET : Nat := 14

/-- MetadataConsts.BACKGROUND_OFFSET (`main.ts` line 288). -/
def MetadataConsts.BACKGROUND_OFFSET : Nat := 23

/-- Modelled from the spec: the packing direction of the metadata codec lives in
`grammar.ts` (absent from the source tree).  Per spec §4.5 packing masks each
field to its declared width (8, 3, 3, 9, 9 bits), shifts it to its offset, and
combines the five results bitwise. -/
def pack (languageId tokenType fontStyle foreground background : Nat) : Nat :=
  ((languageId &&& (2 ^ 8 - 1)) <<< MetadataConsts.LANGUAGEID_OFFSET) |||
  ((tokenType &&& (2 ^ 3 - 1)) <<< MetadataConsts.TOKEN_TYPE_OFFSET) |||
  ((fontStyle &&& (2 ^ 3 - 1)) <<< MetadataConsts.FONT_STYLE_OFFSET) |||
  ((foreground &&& (2 ^ 9 - 1)) <<< MetadataConsts.FOREGROUND_OFFSET) |||
  ((background &&& (2 ^ 9 - 1)) <<< MetadataConsts.BACKGROUND_OFFSET)

/-- Unpacking the language id, per the formula documented at `main.ts` line 244:
`(metadata & MetadataConsts.LANGUAGEID_MASK) >>> MetadataConsts.LANGUAGEID_OFFSET`. -/
def getLanguageId (metadata : Nat) : Nat :=
  (metadata &&& MetadataConsts.LANGUAGEID_MASK) >>> MetadataConsts.LANGUAGEID_OFFSET

/-- Unpacking the token type (mask then shift, as for the language id). -/
def getTokenType (metadata : Nat) : Nat :=
  (metadata &&& MetadataConsts.TOKEN_TYPE_MASK) >>> MetadataConsts.TOKEN_TYPE_OFFSET

/-- Unpacking the font style (mask then shift, as for the language id). -/
def getFontStyle (metadata : Nat) : Nat :=
  (metadata &&& MetadataConsts.FONT_STYLE_MASK) >>> MetadataConsts.FONT_STYLE_OFFSET

/-- Unpacking the foreground color index (mask then shift). -/
def getForeground (metadata : Nat) : Nat :=
  (metadata &&& MetadataConsts.FOREGROUND_MASK) >>> MetadataConsts.FOREGROUND_OFFSET

/-- Unpacking the background color index (mask then shift). -/
def getBackground (metadata : Nat) : Nat :=
  (metadata &&& MetadataConsts.BACKGROUND_MASK) >>> MetadataConsts.BACKGROUND_OFFSET

/-- Run a sequence of `_loadSingleGrammar` requests against one Registry: an
arbitrary interleaving of callers, serialised at the run-to-completion
boundaries of the single-threaded runtime. -/
def runRequests (locator : RegistryOptions) (st : RegistryState) (reqs : List String) :
    RegistryState :=
  reqs.foldl (loadSingleGrammar locator) st

/-- Discriminator: did a `_loadGrammar` run complete successfully? -/
def isOk : Option (Except String RegistryState) → Bool
  | some (.ok _) => true
  | _ => false

/-- Test fixture: grammar `a`, whose whole-grammar scan discovers a full
dependency on scope `b`. -/
def gA : RawGrammar := { scopeName := "a", allDeps := [.full "b"], ruleDeps := [] }

/-- Test fixture: grammar `b`, whose whole-grammar scan discovers a full
dependency back on scope `a` (a dependency cycle with `gA`). -/
def gB : RawGrammar := { scopeName := "b", allDeps := [.full "a"], ruleDeps := [] }

/-- Test fixture: a locator serving the cyclic grammars `gA` and `gB`. -/
def locAB : RegistryOptions :=
  { loadGrammar := fun s => if s = "a" then some gA else if s = "b" then some gB else none
    getInjections := none }

/-- Test fixture: grammar `b` without further dependencies. -/
def gBLeaf : RawGrammar := { scopeName := "b", allDeps := [], ruleDeps := [] }

/-- Test fixture: injection grammar `x` without further dependencies. -/
def gX : RawGrammar := { scopeName := "x", allDeps := [], ruleDeps := [] }

/-- Test fixture: a locator whose `getInjections` declares the same injection
scope `x` for both visited grammars `a` and `b`. -/
def locInj : RegistryOptions :=
  { loadGrammar := fun s =>
      if s = "a" then some gA else if s = "b" then some gBLeaf else
      if s = "x" then some gX else none
    getInjections := some (fun s => if s = "a" then ["x"] else if s = "b" then ["x"] else []) }

/-- Test fixture: grammar `ma` depending on a scope the locator cannot serve. -/
def gMA : RawGrammar := { scopeName := "ma", allDeps := [.full "missing"], ruleDeps := [] }

/-- Test fixture: a locator serving only `ma`. -/
def locMA : RegistryOptions :=
  { loadGrammar := fun s => if s = "ma" then some gMA else none
    getInjections := none }

/-- Test fixture: a pre-registered grammar `z`. -/
def gZ : RawGrammar := { scopeName := "z", allDeps := [], ruleDeps := [] }

/-- Test fixture: a grammar `w` to be added via the public `addGrammar`. -/
def gW : RawGrammar := { scopeName := "w", allDeps := [], ruleDeps := [] }

/-- Test fixture: a registry state already holding grammar `z`, its injection
list, and a cache entry for `z`. -/
def stW : RegistryState :=
  { syncRegistry := { grammars := [("z", gZ)], injections := [("z", ["j"])] }
    ensureGrammarCache := ["z"]
    loadCount := fun _ => 0 }

/-- One successful iteration of the `_loadGrammar` fixpoint loop, as a step
relation between loop states. -/
def IterStep (locator : RegistryOptions) (initialScopeName : String)
    (a b : LoopState) : Prop :=
  loadGrammarIteration locator initialScopeName a = .ok b

/-- A dependency lies inside the finite key universe `(Uf, Up)`: a full
dependency is keyed by its scope name, a partial one by its canonical
`(scopeName, includePath)` key. -/
def DepInUniverse (Uf : List String) (Up : List (String × String)) :
    ScopeDependency → Prop
  | .full s => s ∈ Uf
  | .part s i => (s, i) ∈ Up

/-- Every dependency any scan of this grammar can discover lies inside the
universe. -/
def GrammarInUniverse (Uf : List String) (Up : List (String × String))
    (g : RawGrammar) : Prop :=
  (∀ d ∈ g.allDeps, DepInUniverse Uf Up d) ∧
  (∀ p ∈ g.ruleDeps, ∀ d ∈ p.2, DepInUniverse Uf Up d)

/-- Every grammar and every injection list held by the store lies inside the
universe. -/
def StoreInUniverse (Uf : List String) (Up : List (String × String))
    (store : SyncRegistryState) : Prop :=
  (∀ p ∈ store.grammars, GrammarInUniverse Uf Up p.2) ∧
  (∀ p ∈ store.injections, ∀ s ∈ p.2, s ∈ Uf)

/-- Everything the locator can contribute (loaded grammars, injection lists)
lies inside the universe. -/
def LocatorInUniverse (Uf : List String) (Up : List (String × String))
    (locator : RegistryOptions) : Prop :=
  (∀ s g, locator.loadGrammar s = some g → GrammarInUniverse Uf Up g) ∧
  (∀ f, locator.getInjections = some f → ∀ s, ∀ i ∈ f s, i ∈ Uf)

/-- Both accumulator lists of a collector lie inside the universe. -/
def CollectorInUniverse (Uf : List String) (Up : List (String × String))
    (c : ScopeDependencyCollector) : Prop :=
  (∀ s ∈ c.full, s ∈ Uf) ∧ (∀ k ∈ c.partialDeps, k ∈ Up)

/-- Loop invariant of the `_loadGrammar` fixpoint loop used for the
termination argument: the seen-sets are duplicate-free and inside the
universe, and so is everything the store holds. -/
def LoopInv (Uf : List String) (Up : List (String × String)) (st : LoopState) : Prop :=
  st.seenFullScopeRequests.Nodup ∧ st.seenPartialScopeRequests.Nodup ∧
  (∀ s ∈ st.seenFullScopeRequests, s ∈ Uf) ∧
  (∀ k ∈ st.seenPartialScopeRequests, k ∈ Up) ∧
  StoreInUniverse Uf Up st.reg.syncRegistry

/-- Test fixture: the loop state after one successful iteration of the cyclic
`a`/`b` resolution, starting from the initial loop state for scope `a` (the
error fallback is never taken here). -/
def stepA1 : LoopState :=
  match loadGrammarIteration locAB "a" (initLoopState RegistryState.init "a") with
  | .ok s => s
  | .error _ => initLoopState RegistryState.init "a"

/-- How often the loader ran for a scope in the final state of a resolution
run (zero when the run failed or ran out of fuel). -/
def loadCountAfter (r : Option (Except String RegistryState)) (s : String) : Nat :=
  match r with
  | some (.ok reg) => reg.loadCount s
  | _ => 0

/-- The injection step of `_collectDependenciesForDep` (`main.ts` lines
156–161): add a full dependency for every scope in the store's injection list
for the given scope, when such a list is registered. -/
def addInjections (store : SyncRegistryState) (scopeName : String)
    (result : ScopeDependencyCollector) : ScopeDependencyCollector :=
  match store.injectionsFor scopeName with
  | some injections => injections.foldl (fun r inj => r.add (.full inj)) result
  | none => result

/-- Bits of the literal `255` (`2^8 - 1`). -/
theorem testBit_lit255 (j : Nat) : Nat.testBit 255 j = decide (j < 8) := by
  have h : (255 : Nat) = 2 ^ 8 - 1 := by decide
  rw [h, Nat.testBit_two_pow_sub_one]

/-- Bits of the literal `7` (`2^3 - 1`). -/
theorem testBit_lit7 (j : Nat) : Nat.testBit 7 j = decide (j < 3) := by
  have h : (7 : Nat) = 2 ^ 3 - 1 := by decide
  rw [h, Nat.testBit_two_pow_sub_one]

/-- Bits of the literal `511` (`2^9 - 1`). -/
theorem testBit_lit511 (j : Nat) : Nat.testBit 511 j = decide (j < 9) := by
  have h : (511 : Nat) = 2 ^ 9 - 1 := by decide
  rw [h, Nat.testBit_two_pow_sub_one]

/-- Bits of the literal `1792` (the token-type mask, `(2^3 - 1) <<< 8`). -/
theorem testBit_lit1792 (j : Nat) : Nat.testBit 1792 j = (decide (8 ≤ j) && decide (j - 8 < 3)) := by
  have h : (1792 : Nat) = (2 ^ 3 - 1) <<< 8 := by decide
  rw [h, Nat.testBit_shiftLeft, Nat.testBit_two_pow_sub_one]

/-- Bits of the literal `14336` (the font-style mask, `(2^3 - 1) <<< 11`). -/
theorem testBit_lit14336 (j : Nat) : Nat.testBit 14336 j = (decide (11 ≤ j) && decide (j - 11 < 3)) := by
  have h : (14336 : Nat) = (2 ^ 3 - 1) <<< 11 := by decide
  rw [h, Nat.testBit_shiftLeft, Nat.testBit_two_pow_sub_one]

/-- Bits of the literal `8372224` (the foreground mask, `(2^9 - 1) <<< 14`). -/
theorem testBit_lit8372224 (j : Nat) : Nat.testBit 8372224 j = (decide (14 ≤ j) && decide (j - 14 < 9)) := by
  have h : (8372224 : Nat) = (2 ^ 9 - 1) <<< 14 := by decide
  rw [h, Nat.testBit_shiftLeft, Nat.testBit_two_pow_sub_one]

/-- Bits of the literal `4286578688` (the background mask, `(2^9 - 1) <<< 23`). -/
theorem testBit_lit4286578688 (j : Nat) :
    Nat.testBit 4286578688 j = (decide (23 ≤ j) && decide (j - 23 < 9)) := by
  have h : (4286578688 : Nat) = (2 ^ 9 - 1) <<< 23 := by decide
  rw [h, Nat.testBit_shiftLeft, Nat.testBit_two_pow_sub_one]

/-- The language-id bits of a packed word are exactly the masked language id,
independently of every other field. -/
theorem pack_and_languageMask (l t f fg bg : Nat) :
    pack l t f fg bg &&& MetadataConsts.LANGUAGEID_MASK = l &&& (2 ^ 8 - 1) := by
  apply Nat.eq_of_testBit_eq
  intro j
  rcases Nat.lt_or_ge j 8 with hj | hj
  · have a2 : ¬ (8 ≤ j) := by omega
    have a3 : ¬ (11 ≤ j) := by omega
    have a4 : ¬ (14 ≤ j) := by omega
    have a5 : ¬ (23 ≤ j) := by omega
    simp [pack, MetadataConsts.LANGUAGEID_MASK, MetadataConsts.LANGUAGEID_OFFSET,
      MetadataConsts.TOKEN_TYPE_OFFSET, MetadataConsts.FONT_STYLE_OFFSET,
      MetadataConsts.FOREGROUND_OFFSET, MetadataConsts.BACKGROUND_OFFSET,
      testBit_lit255, testBit_lit7, testBit_lit511, hj, a2, a3, a4, a5]
  · have a1 : ¬ (j < 8) := by omega
    simp [pack, MetadataConsts.LANGUAGEID_MASK, MetadataConsts.LANGUAGEID_OFFSET,
      testBit_lit255, a1]

/-- The token-type bits of a packed word are exactly the masked, shifted token
type, independently of every other field. -/
theorem pack_and_tokenTypeMask (l t f fg bg : Nat) :
    pack l t f fg bg &&& MetadataConsts.TOKEN_TYPE_MASK = (t &&& (2 ^ 3 - 1)) <<< 8 := by
  apply Nat.eq_of_testBit_eq
  intro j
  rcases Nat.lt_or_ge j 8 with hj | hj
  · have a2 : ¬ (8 ≤ j) := by omega
    simp [MetadataConsts.TOKEN_TYPE_MASK, testBit_lit1792, a2]
  · rcases Nat.lt_or_ge j 11 with hj2 | hj2
    · have a1 : ¬ (j < 8) := by omega
      have a2 : j - 8 < 3 := by omega
      have a3 : ¬ (11 ≤ j) := by omega
      have a4 : ¬ (14 ≤ j) := by omega
      have a5 : ¬ (23 ≤ j) := by omega
      simp [pack, MetadataConsts.TOKEN_TYPE_MASK, MetadataConsts.LANGUAGEID_OFFSET,
        MetadataConsts.TOKEN_TYPE_OFFSET, MetadataConsts.FONT_STYLE_OFFSET,
        MetadataConsts.FOREGROUND_OFFSET, MetadataConsts.BACKGROUND_OFFSET,
        testBit_lit255, testBit_lit7, testBit_lit511, testBit_lit1792, hj, a1, a2, a3, a4, a5]
    · have a2 : ¬ (j - 8 < 3) := by omega
      simp [MetadataConsts.TOKEN_TYPE_MASK, testBit_lit1792, testBit_lit7, a2]

/-- The font-style bits of a packed word are exactly the masked, shifted font
style, independently of every other field. -/
theorem pack_and_fontStyleMask (l t f fg bg : Nat) :
    pack l t f fg bg &&& MetadataConsts.FONT_STYLE_MASK = (f &&& (2 ^ 3 - 1)) <<< 11 := by
  apply Nat.eq_of_testBit_eq
  intro j
  rcases Nat.lt_or_ge j 11 with hj | hj
  · have a2 : ¬ (11 ≤ j) := by omega
    simp [MetadataConsts.FONT_STYLE_MASK, testBit_lit14336, a2]
  · rcases Nat.lt_or_ge j 14 with hj2 | hj2
    · have a1 : ¬ (j < 8) := by omega
      have a2 : ¬ (j - 8 < 3) := by omega
      have a3 : j - 11 < 3 := by omega
      have a4 : ¬ (14 ≤ j) := by omega
      have a5 : ¬ (23 ≤ j) := by omega
      have a6 : 8 ≤ j := by omega
      simp [pack, MetadataConsts.FONT_STYLE_MASK, MetadataConsts.LANGUAGEID_OFFSET,
        MetadataConsts.TOKEN_TYPE_OFFSET, MetadataConsts.FONT_STYLE_OFFSET,
        MetadataConsts.FOREGROUND_OFFSET, MetadataConsts.BACKGROUND_OFFSET,
        testBit_lit255, testBit_lit7, testBit_lit511, testBit_lit14336,
        hj, a1, a2, a3, a4, a5, a6]
    · have a2 : ¬ (j - 11 < 3) := by omega
      simp [MetadataConsts.FONT_STYLE_MASK, testBit_lit14336, testBit_lit7, a2]

/-- The foreground bits of a packed word are exactly the masked, shifted
foreground index, independently of every other field. -/
theorem pack_and_foregroundMask (l t f fg bg : Nat) :
    pack l t f fg bg &&& MetadataConsts.FOREGROUND_MASK = (fg &&& (2 ^ 9 - 1)) <<< 14 := by
  apply Nat.eq_of_testBit_eq
  intro j
  rcases Nat.lt_or_ge j 14 with hj | hj
  · have a2 : ¬ (14 ≤ j) := by omega
    simp [MetadataConsts.FOREGROUND_MASK, testBit_lit8372224, a2]
  · rcases Nat.lt_or_ge j 23 with hj2 | hj2
    · have a1 : ¬ (j < 8) := by omega
      have a2 : ¬ (j - 8 < 3) := by omega
      have a3 : ¬ (j - 11 < 3) := by omega
      have a4 : j - 14 < 9 := by omega
      have a5 : ¬ (23 ≤ j) := by omega
      have a6 : 8 ≤ j := by omega
      have a7 : 11 ≤ j := by omega
      simp [pack, MetadataConsts.FOREGROUND_MASK, MetadataConsts.LANGUAGEID_OFFSET,
        MetadataConsts.TOKEN_TYPE_OFFSET, MetadataConsts.FONT_STYLE_OFFSET,
        MetadataConsts.FOREGROUND_OFFSET, MetadataConsts.BACKGROUND_OFFSET,
        testBit_lit255, testBit_lit7, testBit_lit511, testBit_lit8372224,
        hj, a1, a2, a3, a4, a5, a6, a7]
    · have a2 : ¬ (j - 14 < 9) := by omega
      simp [MetadataConsts.FOREGROUND_MASK, testBit_lit8372224, testBit_lit511, a2]

/-- The background bits of a packed word are exactly the masked, shifted
background index, independently of every other field. -/
theorem pack_and_backgroundMask (l t f fg bg : Nat) :
    pack l t f fg bg &&& MetadataConsts.BACKGROUND_MASK = (bg &&& (2 ^ 9 - 1)) <<< 23 := by
  apply Nat.eq_of_testBit_eq
  intro j
  rcases Nat.lt_or_ge j 23 with hj | hj
  · have a2 : ¬ (23 ≤ j) := by omega
    simp [MetadataConsts.BACKGROUND_MASK, testBit_lit4286578688, a2]
  · have a1 : ¬ (j < 8) := by omega
    have a2 : ¬ (j - 8 < 3) := by omega
    have a3 : ¬ (j - 11 < 3) := by omega
    have a4 : ¬ (j - 14 < 9) := by omega
    have a5 : 8 ≤ j := by omega
    have a6 : 11 ≤ j := by omega
    have a7 : 14 ≤ j := by omega
    simp [pack, MetadataConsts.BACKGROUND_MASK, MetadataConsts.LANGUAGEID_OFFSET,
      MetadataConsts.TOKEN_TYPE_OFFSET, MetadataConsts.FONT_STYLE_OFFSET,
      MetadataConsts.FOREGROUND_OFFSET, MetadataConsts.BACKGROUND_OFFSET,
      testBit_lit255, testBit_lit7, testBit_lit511, testBit_lit4286578688,
      hj, a1, a2, a3, a4, a5, a6, a7]

/-- Shifting left by an offset and back is the identity, so unpacking a field
is the masked field itself. -/
theorem getField_of_shift (x n : Nat) : (x <<< n) >>> n = x :=
  Nat.shiftLeft_shiftRight x n

/-- C6: the `MetadataConsts` bit layout is exactly as specified — languageId at
bits 0–7 (mask `0xFF`, offset 0, width 8), tokenType at bits 8–10 (mask
`0x700`, offset 8, width 3), fontStyle at bits 11–13 (mask `0x3800`, offset 11,
width 3), foregroundIndex at bits 14–22 (mask `0x7FC000`, offset 14, width 9),
backgroundIndex at bits 23–31 (mask `0xFF800000`, offset 23, width 9); the five
masks are pairwise disjoint and together cover the 32-bit word with no
overlap. -/
theorem metadataConsts_layout :
    (MetadataConsts.LANGUAGEID_MASK = 0xFF ∧
     MetadataConsts.TOKEN_TYPE_MASK = 0x700 ∧
     MetadataConsts.FONT_STYLE_MASK = 0x3800 ∧
     MetadataConsts.FOREGROUND_MASK = 0x7FC000 ∧
     MetadataConsts.BACKGROUND_MASK = 0xFF800000) ∧
    (MetadataConsts.LANGUAGEID_OFFSET = 0 ∧
     MetadataConsts.TOKEN_TYPE_OFFSET = 8 ∧
     MetadataConsts.FONT_STYLE_OFFSET = 11 ∧
     MetadataConsts.FOREGROUND_OFFSET = 14 ∧
     MetadataConsts.BACKGROUND_OFFSET = 23) ∧
    (MetadataConsts.LANGUAGEID_MASK = (2 ^ 8 - 1) <<< MetadataConsts.LANGUAGEID_OFFSET ∧
     MetadataConsts.TOKEN_TYPE_MASK = (2 ^ 3 - 1) <<< MetadataConsts.TOKEN_TYPE_OFFSET ∧
     MetadataConsts.FONT_STYLE_MASK = (2 ^ 3 - 1) <<< MetadataConsts.FONT_STYLE_OFFSET ∧
     MetadataConsts.FOREGROUND_MASK = (2 ^ 9 - 1) <<< MetadataConsts.FOREGROUND_OFFSET ∧
     MetadataConsts.BACKGROUND_MASK = (2 ^ 9 - 1) <<< MetadataConsts.BACKGROUND_OFFSET) ∧
    (MetadataConsts.LANGUAGEID_MASK &&& MetadataConsts.TOKEN_TYPE_MASK = 0 ∧
     MetadataConsts.LANGUAGEID_MASK &&& MetadataConsts.FONT_STYLE_MASK = 0 ∧
     MetadataConsts.LANGUAGEID_MASK &&& MetadataConsts.FOREGROUND_MASK = 0 ∧
     MetadataConsts.LANGUAGEID_MASK &&& MetadataConsts.BACKGROUND_MASK = 0 ∧
     MetadataConsts.TOKEN_TYPE_MASK &&& MetadataConsts.FONT_STYLE_MASK = 0 ∧
     MetadataConsts.TOKEN_TYPE_MASK &&& MetadataConsts.FOREGROUND_MASK = 0 ∧
     MetadataConsts.TOKEN_TYPE_MASK &&& MetadataConsts.BACKGROUND_MASK = 0 ∧
     MetadataConsts.FONT_STYLE_MASK &&& MetadataConsts.FOREGROUND_MASK = 0 ∧
     MetadataConsts.FONT_STYLE_MASK &&& MetadataConsts.BACKGROUND_MASK = 0 ∧
     MetadataConsts.FOREGROUND_MASK &&& MetadataConsts.BACKGROUND_MASK = 0) ∧
    (MetadataConsts.LANGUAGEID_MASK ||| MetadataConsts.TOKEN_TYPE_MASK |||
     MetadataConsts.FONT_STYLE_MASK ||| MetadataConsts.FOREGROUND_MASK |||
     MetadataConsts.BACKGROUND_MASK = 2 ^ 32 - 1) := by
  decide

/-- C5: round-trip identity of the metadata codec — for languageId in [0,255],
tokenType in {0,1,2,4}, fontStyle in [0,7], foreground and background indices
in [0,511], unpacking the packed word (masking with each field's
`MetadataConsts` mask, then shifting by its offset) yields back exactly the
five input fields. -/
theorem metadata_roundtrip (l t f fg bg : Nat) (hl : l < 256)
    (ht : t = 0 ∨ t = 1 ∨ t = 2 ∨ t = 4) (hf : f < 8) (hfg : fg < 512) (hbg : bg < 512) :
    getLanguageId (pack l t f fg bg) = l ∧
    getTokenType (pack l t f fg bg) = t ∧
    getFontStyle (pack l t f fg bg) = f ∧
    getForeground (pack l t f fg bg) = fg ∧
    getBackground (pack l t f fg bg) = bg := by
  have ht8 : t < 8 := by rcases ht with h | h | h | h <;> omega
  refine ⟨?_, ?_, ?_, ?_, ?_⟩
  · rw [getLanguageId, pack_and_languageMask, MetadataConsts.LANGUAGEID_OFFSET]
    rw [Nat.shiftRight_zero]
    exact Nat.and_pow_two_sub_one_of_lt_two_pow hl
  · rw [getTokenType, pack_and_tokenTypeMask, MetadataConsts.TOKEN_TYPE_OFFSET,
      getField_of_shift]
    exact Nat.and_pow_two_sub_one_of_lt_two_pow ht8
  · rw [getFontStyle, pack_and_fontStyleMask, MetadataConsts.FONT_STYLE_OFFSET,
      getField_of_shift]
    exact Nat.and_pow_two_sub_one_of_lt_two_pow hf
  · rw [getForeground, pack_and_foregroundMask, MetadataConsts.FOREGROUND_OFFSET,
      getField_of_shift]
    exact Nat.and_pow_two_sub_one_of_lt_two_pow hfg
  · rw [getBackground, pack_and_backgroundMask, MetadataConsts.BACKGROUND_OFFSET,
      getField_of_shift]
    exact Nat.and_pow_two_sub_one_of_lt_two_pow hbg

/-- Witness for C5: the round trip at languageId 66, tokenType 2, fontStyle 5,
foreground 300, background 17. -/
theorem metadata_roundtrip_witness :
    (66 < 256 ∧ ((2:Nat) = 0 ∨ (2:Nat) = 1 ∨ (2:Nat) = 2 ∨ (2:Nat) = 4) ∧ 5 < 8 ∧
      300 < 512 ∧ 17 < 512) ∧
    (getLanguageId (pack 66 2 5 300 17) = 66 ∧
     getTokenType (pack 66 2 5 300 17) = 2 ∧
     getFontStyle (pack 66 2 5 300 17) = 5 ∧
     getForeground (pack 66 2 5 300 17) = 300 ∧
     getBackground (pack 66 2 5 300 17) = 17) :=
  ⟨⟨by decide, by decide, by decide, by decide, by decide⟩,
   metadata_roundtrip 66 2 5 300 17 (by decide) (by decide) (by decide) (by decide) (by decide)⟩

/-- C7: packing masks each field to its declared width before shifting, so an
out-of-range field never corrupts the bits of any other field — the packed
word equals the word packed from the width-reduced fields, and the region of
the word selected by each `MetadataConsts` mask depends only on that field's
own (masked) value, independently of all the others. -/
theorem pack_out_of_range_fields (l t f fg bg : Nat) :
    pack l t f fg bg = pack (l % 256) (t % 8) (f % 8) (fg % 512) (bg % 512) ∧
    (pack l t f fg bg &&& MetadataConsts.LANGUAGEID_MASK = l &&& (2 ^ 8 - 1) ∧
     pack l t f fg bg &&& MetadataConsts.TOKEN_TYPE_MASK = (t &&& (2 ^ 3 - 1)) <<< 8 ∧
     pack l t f fg bg &&& MetadataConsts.FONT_STYLE_MASK = (f &&& (2 ^ 3 - 1)) <<< 11 ∧
     pack l t f fg bg &&& MetadataConsts.FOREGROUND_MASK = (fg &&& (2 ^ 9 - 1)) <<< 14 ∧
     pack l t f fg bg &&& MetadataConsts.BACKGROUND_MASK = (bg &&& (2 ^ 9 - 1)) <<< 23) := by
  constructor
  · unfold pack
    rw [Nat.and_pow_two_sub_one_eq_mod, Nat.and_pow_two_sub_one_eq_mod,
      Nat.and_pow_two_sub_one_eq_mod, Nat.and_pow_two_sub_one_eq_mod,
      Nat.and_pow_two_sub_one_eq_mod, Nat.and_pow_two_sub_one_eq_mod,
      Nat.and_pow_two_sub_one_eq_mod, Nat.and_pow_two_sub_one_eq_mod,
      Nat.and_pow_two_sub_one_eq_mod, Nat.and_pow_two_sub_one_eq_mod]
    norm_num [Nat.mod_mod_of_dvd]
  · exact ⟨pack_and_languageMask l t f fg bg, pack_and_tokenTypeMask l t f fg bg,
      pack_and_fontStyleMask l t f fg bg, pack_and_foregroundMask l t f fg bg,
      pack_and_backgroundMask l t f fg bg⟩

/-- Effect of one `_loadSingleGrammar` call on the promise cache: a cached
scope leaves it unchanged, a fresh scope is registered. -/
theorem loadSingleGrammar_cache_effect (locator : RegistryOptions) (st : RegistryState)
    (r : String) :
    (loadSingleGrammar locator st r).ensureGrammarCache =
      if st.ensureGrammarCache.contains r then st.ensureGrammarCache
      else r :: st.ensureGrammarCache := by
  unfold loadSingleGrammar doLoadSingleGrammar
  cases h : st.ensureGrammarCache.contains r
  · simp only [h, Bool.false_eq_true, if_false]
    cases locator.loadGrammar r <;> simp
  · simp [h]

/-- Effect of one `_loadSingleGrammar` call on the loader-invocation counter:
nothing for a cached scope, one increment at exactly the requested scope
otherwise. -/
theorem loadSingleGrammar_count_effect (locator : RegistryOptions) (st : RegistryState)
    (r s : String) :
    (loadSingleGrammar locator st r).loadCount s =
      if st.ensureGrammarCache.contains r then st.loadCount s
      else if s = r then st.loadCount s + 1 else st.loadCount s := by
  unfold loadSingleGrammar doLoadSingleGrammar
  cases h : st.ensureGrammarCache.contains r
  · simp only [h, Bool.false_eq_true, if_false]
    cases locator.loadGrammar r <;> simp
  · simp [h]

/-- A `_loadSingleGrammar` call on an already-cached scope returns the state
unchanged: the cached in-flight promise is reused as is. -/
theorem loadSingleGrammar_cached_noop (locator : RegistryOptions) (st : RegistryState)
    (r : String) (h : st.ensureGrammarCache.contains r = true) :
    loadSingleGrammar locator st r = st := by
  unfold loadSingleGrammar
  rw [h]
  simp

/-- Once a scope is cached, any further request sequence leaves its loader
counter unchanged and keeps it cached. -/
theorem runRequests_cached_stable (locator : RegistryOptions) (reqs : List String) :
    ∀ (st : RegistryState) (s : String), st.ensureGrammarCache.contains s = true →
      (runRequests locator st reqs).loadCount s = st.loadCount s ∧
      (runRequests locator st reqs).ensureGrammarCache.contains s = true := by
  induction reqs with
  | nil => intro st s hs; exact ⟨rfl, hs⟩
  | cons r rest ih =>
      intro st s hs
      have hcache : (loadSingleGrammar locator st r).ensureGrammarCache.contains s = true := by
        rw [loadSingleGrammar_cache_effect]
        cases h : st.ensureGrammarCache.contains r
        · simp at hs ⊢
          exact Or.inr hs
        · simp at hs ⊢
          exact hs
      have hcount : (loadSingleGrammar locator st r).loadCount s = st.loadCount s := by
        rw [loadSingleGrammar_count_effect]
        cases h : st.ensureGrammarCache.contains r
        · have hsr : s ≠ r := by
            intro he
            subst he
            rw [hs] at h
            exact Bool.noConfusion h
          simp [hsr]
        · simp
      have hrest := ih (loadSingleGrammar locator st r) s hcache
      refine ⟨?_, hrest.2⟩
      rw [show runRequests locator st (r :: rest) =
        runRequests locator (loadSingleGrammar locator st r) rest from rfl, hrest.1, hcount]

/-- A request sequence starting from a state where a scope is not yet cached
invokes the loader for that scope exactly once if the sequence requests it
(once or many times), and never otherwise. -/
theorem runRequests_count (locator : RegistryOptions) (reqs : List String) :
    ∀ (st : RegistryState) (s : String), st.ensureGrammarCache.contains s = false →
      (runRequests locator st reqs).loadCount s =
        st.loadCount s + (if s ∈ reqs then 1 else 0) := by
  induction reqs with
  | nil => intro st s _; simp [runRequests]
  | cons r rest ih =>
      intro st s hs
      have hstep : runRequests locator st (r :: rest) =
          runRequests locator (loadSingleGrammar locator st r) rest := rfl
      by_cases hsr : s = r
      · subst hsr
        have hcount : (loadSingleGrammar locator st s).loadCount s = st.loadCount s + 1 := by
          rw [loadSingleGrammar_count_effect, hs]
          simp
        have hcache : (loadSingleGrammar locator st s).ensureGrammarCache.contains s = true := by
          rw [loadSingleGrammar_cache_effect, hs]
          simp
        rw [hstep, (runRequests_cached_stable locator rest _ s hcache).1, hcount]
        simp
      · have hcount : (loadSingleGrammar locator st r).loadCount s = st.loadCount s := by
          rw [loadSingleGrammar_count_effect]
          cases h : st.ensureGrammarCache.contains r
          · simp [hsr]
          · simp
        have hcache : (loadSingleGrammar locator st r).ensureGrammarCache.contains s = false := by
          rw [loadSingleGrammar_cache_effect]
          cases h : st.ensureGrammarCache.contains r
          · simp at hs ⊢
            exact ⟨hsr, hs⟩
          · simp at hs ⊢
            exact hs
        rw [hstep, ih _ s hcache, hcount]
        simp [List.mem_cons, hsr]

/-- C1: per Registry and scope name, `_loadSingleGrammar` triggers the
fetch-and-register sequence (and hence the caller-supplied loader) at most
once — the in-flight promise is registered in `_ensureGrammarCache` by the same
atomic (await-free) segment that starts the load, a call on a cached scope
returns the state unchanged (every caller gets the same cached promise and
outcome), and across any sequence of requests from a state where the scope is
uncached the loader runs exactly once if the scope is ever requested and never
otherwise. -/
theorem loadSingleGrammar_at_most_once (locator : RegistryOptions) (st0 : RegistryState)
    (reqs : List String) (s : String) :
    ((loadSingleGrammar locator st0 s).ensureGrammarCache.contains s = true) ∧
    (st0.ensureGrammarCache.contains s = true → loadSingleGrammar locator st0 s = st0) ∧
    (st0.ensureGrammarCache.contains s = false →
      (runRequests locator st0 reqs).loadCount s =
        st0.loadCount s + (if s ∈ reqs then 1 else 0)) := by
  refine ⟨?_, ?_, ?_⟩
  · rw [loadSingleGrammar_cache_effect]
    cases h : st0.ensureGrammarCache.contains s
    · simp
    · simp at h ⊢
      exact h
  · exact loadSingleGrammar_cached_noop locator st0 s
  · exact runRequests_count locator reqs st0 s

/-- Witness for C1: on a fresh Registry, the request sequence
`["a", "b", "a", "a"]` invokes the loader for scope `a` exactly once. -/
theorem loadSingleGrammar_at_most_once_witness :
    (RegistryState.init.ensureGrammarCache.contains "a" = false) ∧
    ((runRequests defaultRegistryOptions RegistryState.init ["a", "b", "a", "a"]).loadCount "a" =
      RegistryState.init.loadCount "a" + (if "a" ∈ ["a", "b", "a", "a"] then 1 else 0)) ∧
    ((runRequests defaultRegistryOptions RegistryState.init ["a", "b", "a", "a"]).loadCount "a" = 1) :=
  ⟨by decide,
   (loadSingleGrammar_at_most_once defaultRegistryOptions RegistryState.init
      ["a", "b", "a", "a"] "a").2.2 (by decide),
   by decide⟩

/-- C10: the public `addGrammar` registers exactly the supplied grammar and
injection list with the store and immediately requests the handle for
`rawGrammar.scopeName`; it leaves the `_ensureGrammarCache` and the loader
counters untouched (the caller-supplied loader is never invoked), and every
store entry for any other scope is unchanged (no transitive dependency
discovery or resolution). -/
theorem registryAddGrammar_frame (st : RegistryState) (g : RawGrammar)
    (injections : List String) :
    ((registryAddGrammar st g injections).1.ensureGrammarCache = st.ensureGrammarCache) ∧
    ((registryAddGrammar st g injections).1.loadCount = st.loadCount) ∧
    ((registryAddGrammar st g injections).1.syncRegistry.lookup g.scopeName = some g) ∧
    ((registryAddGrammar st g injections).1.syncRegistry.injectionsFor g.scopeName =
      some injections) ∧
    (∀ s, s ≠ g.scopeName →
      (registryAddGrammar st g injections).1.syncRegistry.lookup s = st.syncRegistry.lookup s ∧
      (registryAddGrammar st g injections).1.syncRegistry.injectionsFor s =
        st.syncRegistry.injectionsFor s) ∧
    ((registryAddGrammar st g injections).2 = g.scopeName) := by
  refine ⟨rfl, rfl, ?_, ?_, ?_, rfl⟩
  · simp [registryAddGrammar, SyncRegistryState.addGrammar, SyncRegistryState.lookup,
      List.lookup]
  · simp [registryAddGrammar, SyncRegistryState.addGrammar, SyncRegistryState.injectionsFor,
      List.lookup]
  · intro s hs
    have hb : (s == g.scopeName) = false := beq_eq_false_iff_ne.mpr hs
    constructor
    · simp [registryAddGrammar, SyncRegistryState.addGrammar, SyncRegistryState.lookup,
        List.lookup, hb]
    · simp [registryAddGrammar, SyncRegistryState.addGrammar, SyncRegistryState.injectionsFor,
        List.lookup, hb]

/-- Witness for C10: adding grammar `w` to a registry already holding grammar
`z` leaves the entries for `z` (and the cache) unchanged while registering
`w`. -/
theorem registryAddGrammar_frame_witness :
    (("z" : String) ≠ "w") ∧
    ((registryAddGrammar stW gW ["i1"]).1.syncRegistry.lookup "z" =
        stW.syncRegistry.lookup "z" ∧
      (registryAddGrammar stW gW ["i1"]).1.syncRegistry.injectionsFor "z" =
        stW.syncRegistry.injectionsFor "z") ∧
    ((registryAddGrammar stW gW ["i1"]).1.ensureGrammarCache = stW.ensureGrammarCache) ∧
    ((registryAddGrammar stW gW ["i1"]).1.syncRegistry.lookup "w" = some gW) :=
  ⟨by decide,
   (registryAddGrammar_frame stW gW ["i1"]).2.2.2.2.1 "z" (by decide),
   (registryAddGrammar_frame stW gW ["i1"]).1,
   by
     have h := (registryAddGrammar_frame stW gW ["i1"]).2.2.1
     simpa [gW] using h⟩

/-- C9: a Registry constructed with no options uses the default locator, whose
`loadGrammar` returns `null` for every scope; consequently every public
`loadGrammar(scopeName)` call rejects with "No grammar provided for
`<scopeName>`" — the fatal-initial-scope path — whatever the scope and however
much fuel the resolution loop is given. -/
theorem default_registry_always_fails :
    (∀ s, defaultRegistryOptions.loadGrammar s = none) ∧
    (∀ (s : String) (fuel : Nat),
      loadGrammarRun defaultRegistryOptions RegistryState.init s (fuel + 1) =
        some (.error ("No grammar provided for <" ++ s ++ ">"))) := by
  constructor
  · intro s
    rfl
  · intro s fuel
    simp [loadGrammarRun, loadGrammarLoop, initLoopState, loadGrammarIteration,
      loadSingleGrammar, doLoadSingleGrammar, defaultRegistryOptions, RegistryState.init,
      collectLoop, collectDependenciesForDep, SyncRegistryState.lookup,
      ScopeDependency.scopeName, List.lookup]

/-- Counterexample for C2 as stated: when the initial scope `a` is absent from
the store, `_collectDependenciesForDep` throws the message
"No grammar provided for \x3ca\x3e" (capital "No"), not the claimed literal
"no grammar provided for \x3ca\x3e". -/
theorem collectDep_message_counterexample :
    collectDependenciesForDep { grammars := [], injections := [] } "a"
        ScopeDependencyCollector.empty (.full "a") =
      .error "No grammar provided for <a>" ∧
    collectDependenciesForDep { grammars := [], injections := [] } "a"
        ScopeDependencyCollector.empty (.full "a") ≠
      .error "no grammar provided for <a>" := by
  constructor
  · rfl
  · intro h
    have : ("No grammar provided for <a>" : String) = "no grammar provided for <a>" := by
      have h1 : collectDependenciesForDep { grammars := [], injections := [] } "a"
          ScopeDependencyCollector.empty (.full "a") =
        .error "No grammar provided for <a>" := rfl
      rw [h1] at h
      exact Except.error.inj h
    simp at this

/-- C2 (amended): during resolution, when a dependency's grammar is absent
from the store after its load settles, the initial scope fails fatally with
the error "No grammar provided for \x3cinitialScope\x3e" (aborting the whole
operation), while any non-initial scope is dropped silently (the collector is
returned unchanged, the branch unexpanded) and resolution still completes
successfully — as witnessed by a run whose grammar depends on an unloadable
non-initial scope. -/
theorem collectDep_absent_behavior (store : SyncRegistryState) (initialScopeName : String)
    (result : ScopeDependencyCollector) (dep : ScopeDependency)
    (habs : store.lookup dep.scopeName = none) :
    (dep.scopeName = initialScopeName →
      collectDependenciesForDep store initialScopeName result dep =
        .error ("No grammar provided for <" ++ initialScopeName ++ ">")) ∧
    (dep.scopeName ≠ initialScopeName →
      collectDependenciesForDep store initialScopeName result dep = .ok result) ∧
    isOk (loadGrammarRun locMA RegistryState.init "ma" 3) = true := by
  refine ⟨?_, ?_, by decide⟩
  · intro he
    rw [he] at habs
    simp [collectDependenciesForDep, he, habs]
  · intro hne
    simp [collectDependenciesForDep, habs, hne]

/-- Witness for C2 (amended): a non-initial absent dependency `b` is dropped
silently with the collector unchanged. -/
theorem collectDep_absent_behavior_witness :
    (SyncRegistryState.lookup { grammars := [], injections := [] }
        (ScopeDependency.full "b").scopeName = none) ∧
    ((ScopeDependency.full "b").scopeName ≠ "a") ∧
    (collectDependenciesForDep { grammars := [], injections := [] } "a"
        ScopeDependencyCollector.empty (.full "b") = .ok ScopeDependencyCollector.empty) :=
  ⟨by decide, by decide,
   (collectDep_absent_behavior { grammars := [], injections := [] } "a"
      ScopeDependencyCollector.empty (.full "b") (by decide)).2.1 (by decide)⟩

/-- The full-dependency push loop only ever grows `seenFullScopeRequests`. -/
theorem pushFullDeps_seen_mono (deps : List String) :
    ∀ (seen : List String) (q : List ScopeDependency) (s : String), s ∈ seen →
      s ∈ (pushFullDeps deps seen q).1 := by
  induction deps with
  | nil => intro seen q s hs; exact hs
  | cons x rest ih =>
      intro seen q s hs
      unfold pushFullDeps
      cases h : seen.contains x
      · simp only [Bool.false_eq_true, if_false]
        exact ih _ _ s (List.mem_append_left _ hs)
      · simp only [if_true]
        exact ih seen q s hs

/-- Everything the full-dependency push loop appends to the frontier is a full
dependency on a scope that was not yet fully seen and is marked seen by the
loop itself. -/
theorem pushFullDeps_q_spec (deps : List String) :
    ∀ (seen : List String) (q : List ScopeDependency) (d : ScopeDependency),
      d ∈ (pushFullDeps deps seen q).2 →
      d ∈ q ∨ ∃ s, d = .full s ∧ s ∉ seen ∧ s ∈ (pushFullDeps deps seen q).1 := by
  induction deps with
  | nil => intro seen q d hd; exact Or.inl hd
  | cons x rest ih =>
      intro seen q d hd
      unfold pushFullDeps at hd ⊢
      cases h : seen.contains x
      · simp only [h, Bool.false_eq_true, if_false] at hd ⊢
        rcases ih _ _ d hd with h1 | ⟨s, rfl, hs1, hs2⟩
        · rcases List.mem_append.mp h1 with h2 | h2
          · exact Or.inl h2
          · right
            refine ⟨x, List.mem_singleton.mp h2, ?_, ?_⟩
            · simp at h
              exact h
            · exact pushFullDeps_seen_mono rest _ _ x (List.mem_append_right _ (List.mem_singleton.mpr rfl))
        · right
          refine ⟨s, rfl, fun hc => hs1 (List.mem_append_left _ hc), hs2⟩
      · simp only [h, if_true] at hd ⊢
        exact ih seen q d hd

/-- The partial-dependency push loop only ever grows
`seenPartialScopeRequests`. -/
theorem pushPartialDeps_seen_mono (seenFull : List String) (deps : List (String × String)) :
    ∀ (seenPartial : List (String × String)) (q : List ScopeDependency) (k : String × String),
      k ∈ seenPartial → k ∈ (pushPartialDeps seenFull deps seenPartial q).1 := by
  induction deps with
  | nil => intro seenPartial q k hk; exact hk
  | cons x rest ih =>
      intro seenPartial q k hk
      unfold pushPartialDeps
      cases h1 : seenFull.contains x.1
      · simp only [h1, Bool.false_eq_true, if_false]
        cases h2 : seenPartial.contains x
        · simp only [h2, Bool.false_eq_true, if_false]
          exact ih _ _ k (List.mem_append_left _ hk)
        · simp only [if_true]
          exact ih seenPartial q k hk
      · simp only [if_true]
        exact ih seenPartial q k hk

/-- Everything the partial-dependency push loop appends to the frontier is a
partial dependency whose scope is not fully seen and whose canonical key was
not yet partially seen and is marked seen by the loop itself. -/
theorem pushPartialDeps_q_spec (seenFull : List String) (deps : List (String × String)) :
    ∀ (seenPartial : List (String × String)) (q : List ScopeDependency) (d : ScopeDependency),
      d ∈ (pushPartialDeps seenFull deps seenPartial q).2 →
      d ∈ q ∨ ∃ k : String × String, d = .part k.1 k.2 ∧ k.1 ∉ seenFull ∧
        k ∉ seenPartial ∧ k ∈ (pushPartialDeps seenFull deps seenPartial q).1 := by
  induction deps with
  | nil => intro seenPartial q d hd; exact Or.inl hd
  | cons x rest ih =>
      intro seenPartial q d hd
      unfold pushPartialDeps at hd ⊢
      cases h1 : seenFull.contains x.1
      · simp only [h1, Bool.false_eq_true, if_false] at hd ⊢
        cases h2 : seenPartial.contains x
        · simp only [h2, Bool.false_eq_true, if_false] at hd ⊢
          rcases ih _ _ d hd with h3 | ⟨k, rfl, hk1, hk2, hk3⟩
          · rcases List.mem_append.mp h3 with h4 | h4
            · exact Or.inl h4
            · right
              refine ⟨x, ?_, ?_, ?_, ?_⟩
              · exact List.mem_singleton.mp h4
              · simp at h1
                exact h1
              · simp at h2
                exact h2
              · exact pushPartialDeps_seen_mono seenFull rest _ _ x
                  (List.mem_append_right _ (List.mem_singleton.mpr rfl))
          · right
            exact ⟨k, rfl, hk1, fun hc => hk2 (List.mem_append_left _ hc), hk3⟩
        · simp only [h2, if_true] at hd ⊢
          exact ih seenPartial q d hd
      · simp only [h1, if_true] at hd ⊢
        exact ih seenPartial q d hd

/-- A successful key-value lookup in an association list finds an actual
entry. -/
theorem lookup_mem {α β : Type} [BEq α] [LawfulBEq α] {l : List (α × β)} {k : α}
    {b : β} (h : l.lookup k = some b) : (k, b) ∈ l := by
  obtain ⟨l₁, l₂, rfl, -⟩ := List.lookup_eq_some_iff.mp h
  exact List.mem_append_right _ (List.mem_cons_self _ _)

/-- A successful key-value lookup in an injection association list finds an
actual entry. -/
theorem lookup_mem_inj {l : List (String × List String)} {k : String}
    {b : List String} (h : l.lookup k = some b) : (k, b) ∈ l := by
  obtain ⟨l₁, l₂, rfl, -⟩ := List.lookup_eq_some_iff.mp h
  exact List.mem_append_right _ (List.mem_cons_self _ _)

/-- Inversion of a successful `_loadGrammar` iteration: the new registry state
is the batch loaded through the cache, and the new seen-sets and frontier are
exactly the outputs of the two dedup-push loops run on the collected
dependencies. -/
theorem loadGrammarIteration_ok_inv (locator : RegistryOptions) (initialScopeName : String)
    (st st' : LoopState)
    (h : loadGrammarIteration locator initialScopeName st = .ok st') :
    ∃ deps : ScopeDependencyCollector,
      collectLoop (st.Q.foldl (fun r d => loadSingleGrammar locator r d.scopeName)
          st.reg).syncRegistry initialScopeName ScopeDependencyCollector.empty st.Q =
        .ok deps ∧
      st'.reg = st.Q.foldl (fun r d => loadSingleGrammar locator r d.scopeName) st.reg ∧
      st'.seenFullScopeRequests = (pushFullDeps deps.full st.seenFullScopeRequests []).1 ∧
      st'.seenPartialScopeRequests =
        (pushPartialDeps (pushFullDeps deps.full st.seenFullScopeRequests []).1
          deps.partialDeps st.seenPartialScopeRequests
          (pushFullDeps deps.full st.seenFullScopeRequests []).2).1 ∧
      st'.Q =
        (pushPartialDeps (pushFullDeps deps.full st.seenFullScopeRequests []).1
          deps.partialDeps st.seenPartialScopeRequests
          (pushFullDeps deps.full st.seenFullScopeRequests []).2).2 := by
  simp only [loadGrammarIteration] at h
  cases hc : collectLoop (st.Q.foldl (fun r d => loadSingleGrammar locator r d.scopeName)
      st.reg).syncRegistry initialScopeName ScopeDependencyCollector.empty st.Q with
  | error e =>
      rw [hc] at h
      exact absurd h (by simp)
  | ok deps =>
      rw [hc] at h
      refine ⟨deps, rfl, ?_⟩
      injection h with h2
      rw [← h2]
      exact ⟨rfl, rfl, rfl, rfl⟩

/-- A successful iteration only grows `seenFullScopeRequests`. -/
theorem iteration_seenFull_mono (locator : RegistryOptions) (initialScopeName : String)
    (st st' : LoopState) (h : IterStep locator initialScopeName st st') :
    ∀ s ∈ st.seenFullScopeRequests, s ∈ st'.seenFullScopeRequests := by
  obtain ⟨deps, -, -, hsf, -, -⟩ := loadGrammarIteration_ok_inv locator initialScopeName st st' h
  intro s hs
  rw [hsf]
  exact pushFullDeps_seen_mono deps.full _ _ s hs

/-- A scope already in `seenFullScopeRequests` before an iteration is never a
member of the frontier that iteration produces, neither as a full nor as a
partial dependency. -/
theorem iteration_no_reenqueue (locator : RegistryOptions) (initialScopeName : String)
    (st st' : LoopState) (h : IterStep locator initialScopeName st st') :
    ∀ s ∈ st.seenFullScopeRequests, ∀ d ∈ st'.Q, d.scopeName ≠ s := by
  obtain ⟨deps, -, -, hsf, -, hq⟩ := loadGrammarIteration_ok_inv locator initialScopeName st st' h
  intro s hs d hd
  rw [hq] at hd
  rcases pushPartialDeps_q_spec _ deps.partialDeps _ _ d hd with h1 | ⟨k, rfl, hk1, -, -⟩
  · rcases pushFullDeps_q_spec deps.full _ _ d h1 with h2 | ⟨x, rfl, hx1, -⟩
    · cases h2
    · intro he
      simp only [ScopeDependency.scopeName] at he
      subst he
      exact hx1 hs
  · intro he
    simp only [ScopeDependency.scopeName] at he
    subst he
    exact hk1 (pushFullDeps_seen_mono deps.full _ _ k.1 hs)

/-- A partial dependency enqueued by an iteration has a scope that is not
fully seen (even after the iteration) and a canonical key that was not yet
partially seen and is recorded by the iteration itself. -/
theorem iteration_partial_fresh (locator : RegistryOptions) (initialScopeName : String)
    (st st' : LoopState) (h : IterStep locator initialScopeName st st') :
    ∀ s i, ScopeDependency.part s i ∈ st'.Q →
      s ∉ st'.seenFullScopeRequests ∧ (s, i) ∉ st.seenPartialScopeRequests ∧
      (s, i) ∈ st'.seenPartialScopeRequests := by
  obtain ⟨deps, -, -, hsf, hsp, hq⟩ :=
    loadGrammarIteration_ok_inv locator initialScopeName st st' h
  intro s i hd
  rw [hq] at hd
  rcases pushPartialDeps_q_spec _ deps.partialDeps _ _ _ hd with h1 | ⟨k, hk, hk1, hk2, hk3⟩
  · rcases pushFullDeps_q_spec deps.full _ _ _ h1 with h2 | ⟨x, hx, -, -⟩
    · cases h2
    · cases hx
  · obtain ⟨rfl, rfl⟩ : s = k.1 ∧ i = k.2 := by
      cases hk
      exact ⟨rfl, rfl⟩
    rw [hsf, hsp]
    exact ⟨hk1, hk2, hk3⟩

/-- Full-seen membership propagates along any chain of successful
iterations. -/
theorem iterChain_seenFull_mono (locator : RegistryOptions) (initialScopeName : String)
    (st st' : LoopState)
    (h : Relation.ReflTransGen (IterStep locator initialScopeName) st st') :
    ∀ s ∈ st.seenFullScopeRequests, s ∈ st'.seenFullScopeRequests := by
  induction h with
  | refl => exact fun s hs => hs
  | tail _ hstep ih =>
      intro s hs
      exact iteration_seenFull_mono locator initialScopeName _ _ hstep s (ih s hs)

/-- C4: the frontier invariant of `_loadGrammar` — the loop starts with
`seenFullScopeRequests = {initialScopeName}`, empty partial requests and the
frontier `[Full(initialScopeName)]`; `seenFullScopeRequests` is append-only
across an iteration; once a scope is in `seenFullScopeRequests`, no dependency
with that scope name (full or partial) is ever enqueued by this or any later
iteration; and a partial dependency is enqueued only when its scope is not
fully seen and its canonical `(scopeName, includePath)` key is fresh, the key
being recorded in `seenPartialScopeRequests` as it is enqueued. -/
theorem loadGrammar_frontier_invariant (locator : RegistryOptions)
    (reg : RegistryState) (initialScopeName : String) (st st₁ st₂ : LoopState)
    (hstep : IterStep locator initialScopeName st st₁)
    (hchain : Relation.ReflTransGen (IterStep locator initialScopeName) st₁ st₂) :
    (initLoopState reg initialScopeName =
      { reg := reg
        seenFullScopeRequests := [initialScopeName]
        seenPartialScopeRequests := []
        Q := [ScopeDependency.full initialScopeName] }) ∧
    (∀ s ∈ st.seenFullScopeRequests, s ∈ st₁.seenFullScopeRequests) ∧
    (∀ s ∈ st.seenFullScopeRequests, ∀ d ∈ st₂.Q, d.scopeName ≠ s) ∧
    (∀ s i, ScopeDependency.part s i ∈ st₁.Q →
      s ∉ st₁.seenFullScopeRequests ∧ (s, i) ∉ st.seenPartialScopeRequests ∧
      (s, i) ∈ st₁.seenPartialScopeRequests) := by
  refine ⟨rfl, iteration_seenFull_mono locator initialScopeName st st₁ hstep, ?_,
    iteration_partial_fresh locator initialScopeName st st₁ hstep⟩
  intro s hs d hd
  rcases Relation.ReflTransGen.cases_tail hchain with rfl | ⟨c, hc, hlast⟩
  · exact iteration_no_reenqueue locator initialScopeName st st₂ hstep s hs d hd
  · have hs1 : s ∈ st₁.seenFullScopeRequests :=
      iteration_seenFull_mono locator initialScopeName st st₁ hstep s hs
    have hsc : s ∈ c.seenFullScopeRequests :=
      iterChain_seenFull_mono locator initialScopeName st₁ c hc s hs1
    exact iteration_no_reenqueue locator initialScopeName c st₂ hlast s hsc d hd

/-- Witness for C4: one iteration of the cyclic `a`/`b` resolution starting at
scope `a` — the frontier it produces mentions no scope already fully seen. -/
theorem loadGrammar_frontier_invariant_witness :
    IterStep locAB "a" (initLoopState RegistryState.init "a") stepA1 ∧
    (∀ s ∈ (initLoopState RegistryState.init "a").seenFullScopeRequests,
      ∀ d ∈ stepA1.Q, d.scopeName ≠ s) := by
  have hstep : IterStep locAB "a" (initLoopState RegistryState.init "a") stepA1 := rfl
  exact ⟨hstep,
    (loadGrammar_frontier_invariant locAB RegistryState.init "a"
      (initLoopState RegistryState.init "a") stepA1 stepA1 hstep
      Relation.ReflTransGen.refl).2.2.1⟩

/-- The full-dependency push loop grows the seen-set and the frontier in
lockstep: one new seen scope per enqueued dependency. -/
theorem pushFullDeps_len (deps : List String) :
    ∀ (seen : List String) (q : List ScopeDependency),
      (pushFullDeps deps seen q).1.length + q.length =
        (pushFullDeps deps seen q).2.length + seen.length := by
  induction deps with
  | nil =>
      intro seen q
      simp only [pushFullDeps]
      omega
  | cons x rest ih =>
      intro seen q
      unfold pushFullDeps
      cases h : seen.contains x
      · simp only [Bool.false_eq_true, if_false]
        have := ih (seen ++ [x]) (q ++ [ScopeDependency.full x])
        simp only [List.length_append, List.length_singleton] at this
        omega
      · simp only [if_true]
        exact ih seen q

/-- The partial-dependency push loop grows the seen-set and the frontier in
lockstep: one new seen key per enqueued dependency. -/
theorem pushPartialDeps_len (seenFull : List String) (deps : List (String × String)) :
    ∀ (seenPartial : List (String × String)) (q : List ScopeDependency),
      (pushPartialDeps seenFull deps seenPartial q).1.length + q.length =
        (pushPartialDeps seenFull deps seenPartial q).2.length + seenPartial.length := by
  induction deps with
  | nil =>
      intro seenPartial q
      simp only [pushPartialDeps]
      omega
  | cons x rest ih =>
      intro seenPartial q
      unfold pushPartialDeps
      cases h1 : seenFull.contains x.1
      · simp only [Bool.false_eq_true, if_false]
        cases h2 : seenPartial.contains x
        · simp only [Bool.false_eq_true, if_false]
          have := ih (seenPartial ++ [x]) (q ++ [ScopeDependency.part x.1 x.2])
          simp only [List.length_append, List.length_singleton] at this
          omega
        · simp only [if_true]
          exact ih seenPartial q
      · simp only [if_true]
        exact ih seenPartial q

/-- The full-dependency push loop preserves duplicate-freedom of the
seen-set. -/
theorem pushFullDeps_nodup (deps : List String) :
    ∀ (seen : List String) (q : List ScopeDependency), seen.Nodup →
      (pushFullDeps deps seen q).1.Nodup := by
  induction deps with
  | nil => intro seen q h; exact h
  | cons x rest ih =>
      intro seen q h
      unfold pushFullDeps
      cases hx : seen.contains x
      · simp only [Bool.false_eq_true, if_false]
        refine ih _ _ ?_
        have hnx : x ∉ seen := by
          simp at hx
          exact hx
        simp [List.nodup_append, h, hnx]
      · simp only [if_true]
        exact ih seen q h

/-- The partial-dependency push loop preserves duplicate-freedom of the
seen-set. -/
theorem pushPartialDeps_nodup (seenFull : List String) (deps : List (String × String)) :
    ∀ (seenPartial : List (String × String)) (q : List ScopeDependency),
      seenPartial.Nodup → (pushPartialDeps seenFull deps seenPartial q).1.Nodup := by
  induction deps with
  | nil => intro seenPartial q h; exact h
  | cons x rest ih =>
      intro seenPartial q h
      unfold pushPartialDeps
      cases h1 : seenFull.contains x.1
      · simp only [Bool.false_eq_true, if_false]
        cases h2 : seenPartial.contains x
        · simp only [Bool.false_eq_true, if_false]
          refine ih _ _ ?_
          have hnx : x ∉ seenPartial := by
            simp at h2
            exact h2
          simp [List.nodup_append, h, hnx]
        · simp only [h2, if_true]
          exact ih seenPartial q h
      · simp only [h1, if_true]
        exact ih seenPartial q h

/-- The full-dependency push loop keeps the seen-set inside the universe. -/
theorem pushFullDeps_sub (Uf : List String) (deps : List String) :
    ∀ (seen : List String) (q : List ScopeDependency),
      (∀ x ∈ deps, x ∈ Uf) → (∀ x ∈ seen, x ∈ Uf) →
      ∀ x ∈ (pushFullDeps deps seen q).1, x ∈ Uf := by
  induction deps with
  | nil => intro seen q _ hseen x hx; exact hseen x hx
  | cons d rest ih =>
      intro seen q hdeps hseen x hx
      unfold pushFullDeps at hx
      cases h : seen.contains d
      · rw [h] at hx
        simp only [Bool.false_eq_true, if_false] at hx
        refine ih _ _ (fun y hy => hdeps y (List.mem_cons_of_mem _ hy)) ?_ x hx
        intro y hy
        rcases List.mem_append.mp hy with h1 | h1
        · exact hseen y h1
        · rw [List.mem_singleton.mp h1]
          exact hdeps d (List.mem_cons_self _ _)
      · rw [h] at hx
        simp only [if_true] at hx
        exact ih seen q (fun y hy => hdeps y (List.mem_cons_of_mem _ hy)) hseen x hx

/-- The partial-dependency push loop keeps the seen-set inside the universe. -/
theorem pushPartialDeps_sub (Up : List (String × String)) (seenFull : List String)
    (deps : List (String × String)) :
    ∀ (seenPartial : List (String × String)) (q : List ScopeDependency),
      (∀ k ∈ deps, k ∈ Up) → (∀ k ∈ seenPartial, k ∈ Up) →
      ∀ k ∈ (pushPartialDeps seenFull deps seenPartial q).1, k ∈ Up := by
  induction deps with
  | nil => intro seenPartial q _ hseen k hk; exact hseen k hk
  | cons d rest ih =>
      intro seenPartial q hdeps hseen k hk
      unfold pushPartialDeps at hk
      cases h1 : seenFull.contains d.1
      · rw [h1] at hk
        simp only [Bool.false_eq_true, if_false] at hk
        cases h2 : seenPartial.contains d
        · rw [h2] at hk
          simp only [Bool.false_eq_true, if_false] at hk
          refine ih _ _ (fun y hy => hdeps y (List.mem_cons_of_mem _ hy)) ?_ k hk
          intro y hy
          rcases List.mem_append.mp hy with hm | hm
          · exact hseen y hm
          · rw [List.mem_singleton.mp hm]
            exact hdeps d (List.mem_cons_self _ _)
        · rw [h2] at hk
          simp only [if_true] at hk
          exact ih seenPartial q (fun y hy => hdeps y (List.mem_cons_of_mem _ hy)) hseen k hk
      · rw [h1] at hk
        simp only [if_true] at hk
        exact ih seenPartial q (fun y hy => hdeps y (List.mem_cons_of_mem _ hy)) hseen k hk

/-- A cache-mediated single-grammar load can only put universe-closed
grammars and injection lists into the store. -/
theorem loadSingleGrammar_store_universe (Uf : List String) (Up : List (String × String))
    (locator : RegistryOptions) (hLoc : LocatorInUniverse Uf Up locator)
    (st : RegistryState) (r : String)
    (hSt : StoreInUniverse Uf Up st.syncRegistry) :
    StoreInUniverse Uf Up (loadSingleGrammar locator st r).syncRegistry := by
  unfold loadSingleGrammar doLoadSingleGrammar
  cases hc : st.ensureGrammarCache.contains r
  · simp only [Bool.false_eq_true, if_false]
    cases hg : locator.loadGrammar r
    · simpa using hSt
    · rename_i g
      simp only [SyncRegistryState.addGrammar]
      constructor
      · intro p hp
        rcases List.mem_cons.mp hp with rfl | hp
        · exact hLoc.1 r g hg
        · exact hSt.1 p hp
      · intro p hp
        cases hf : locator.getInjections with
        | none =>
            rw [hf] at hp
            simp only [Option.map_none'] at hp
            exact hSt.2 p hp
        | some f =>
            rw [hf] at hp
            simp only [Option.map_some'] at hp
            rcases List.mem_cons.mp hp with rfl | hp
            · exact fun s hs => hLoc.2 f hf r s hs
            · exact hSt.2 p hp
  · simpa using hSt

/-- Loading a whole batch through the cache keeps the store universe-closed. -/
theorem batchLoad_store_universe (Uf : List String) (Up : List (String × String))
    (locator : RegistryOptions) (hLoc : LocatorInUniverse Uf Up locator)
    (q : List ScopeDependency) :
    ∀ (reg : RegistryState), StoreInUniverse Uf Up reg.syncRegistry →
      StoreInUniverse Uf Up
        (q.foldl (fun r d => loadSingleGrammar locator r d.scopeName) reg).syncRegistry := by
  induction q with
  | nil => intro reg h; exact h
  | cons d rest ih =>
      intro reg h
      exact ih _ (loadSingleGrammar_store_universe Uf Up locator hLoc reg d.scopeName h)

/-- Recording one universe dependency keeps the collector universe-closed. -/
theorem collector_add_universe (Uf : List String) (Up : List (String × String))
    (c : ScopeDependencyCollector) (d : ScopeDependency)
    (hc : CollectorInUniverse Uf Up c) (hd : DepInUniverse Uf Up d) :
    CollectorInUniverse Uf Up (c.add d) := by
  cases d with
  | full s =>
      refine ⟨?_, hc.2⟩
      intro x hx
      rcases List.mem_append.mp hx with h1 | h1
      · exact hc.1 x h1
      · rw [List.mem_singleton.mp h1]
        exact hd
  | part s i =>
      refine ⟨hc.1, ?_⟩
      intro k hk
      rcases List.mem_append.mp hk with h1 | h1
      · exact hc.2 k h1
      · rw [List.mem_singleton.mp h1]
        exact hd

/-- Folding a list of universe dependencies into the collector keeps it
universe-closed. -/
theorem collector_foldl_universe (Uf : List String) (Up : List (String × String))
    (ds : List ScopeDependency) :
    ∀ (c : ScopeDependencyCollector), CollectorInUniverse Uf Up c →
      (∀ d ∈ ds, DepInUniverse Uf Up d) →
      CollectorInUniverse Uf Up (ds.foldl ScopeDependencyCollector.add c) := by
  induction ds with
  | nil => intro c hc _; exact hc
  | cons d rest ih =>
      intro c hc hds
      exact ih _ (collector_add_universe Uf Up c d hc (hds d (List.mem_cons_self _ _)))
        (fun x hx => hds x (List.mem_cons_of_mem _ hx))

/-- Folding a list of universe injection scopes into the collector keeps it
universe-closed. -/
theorem collector_foldl_inj_universe (Uf : List String) (Up : List (String × String))
    (inj : List String) :
    ∀ (c : ScopeDependencyCollector), CollectorInUniverse Uf Up c →
      (∀ s ∈ inj, s ∈ Uf) →
      CollectorInUniverse Uf Up
        (inj.foldl (fun r i => r.add (ScopeDependency.full i)) c) := by
  induction inj with
  | nil => intro c hc _; exact hc
  | cons s rest ih =>
      intro c hc hinj
      exact ih _ (collector_add_universe Uf Up c (.full s) hc
          (hinj s (List.mem_cons_self _ _)))
        (fun x hx => hinj x (List.mem_cons_of_mem _ hx))

/-- One `_collectDependenciesForDep` step on a universe-closed store keeps the
collector universe-closed. -/
theorem collectDep_universe (Uf : List String) (Up : List (String × String))
    (store : SyncRegistryState) (initialScopeName : String)
    (c : ScopeDependencyCollector) (dep : ScopeDependency) (c' : ScopeDependencyCollector)
    (hStore : StoreInUniverse Uf Up store)
    (hc : CollectorInUniverse Uf Up c)
    (h : collectDependenciesForDep store initialScopeName c dep = .ok c') :
    CollectorInUniverse Uf Up c' := by
  cases dep with
  | full s =>
      unfold collectDependenciesForDep at h
      simp only [ScopeDependency.scopeName] at h
      cases hl : store.lookup s with
      | none =>
          rw [hl] at h
          by_cases he : s = initialScopeName
          · rw [if_pos he] at h
            cases h
          · rw [if_neg he] at h
            injection h with h
            rw [← h]
            exact hc
      | some grammar =>
          rw [hl] at h
          have hg : GrammarInUniverse Uf Up grammar :=
            hStore.1 (s, grammar) (lookup_mem hl)
          have hscan : CollectorInUniverse Uf Up (collectDependencies c grammar) :=
            collector_foldl_universe Uf Up grammar.allDeps c hc hg.1
          cases hi : store.injectionsFor s with
          | none =>
              rw [hi] at h
              injection h with h
              rw [← h]
              exact hscan
          | some inj =>
              rw [hi] at h
              injection h with h
              rw [← h]
              exact collector_foldl_inj_universe Uf Up inj _ hscan
                (fun x hx => hStore.2 (s, inj) (lookup_mem_inj hi) x hx)
  | part s i =>
      unfold collectDependenciesForDep at h
      simp only [ScopeDependency.scopeName] at h
      cases hl : store.lookup s with
      | none =>
          rw [hl] at h
          by_cases he : s = initialScopeName
          · rw [if_pos he] at h
            cases h
          · rw [if_neg he] at h
            injection h with h
            rw [← h]
            exact hc
      | some grammar =>
          rw [hl] at h
          have hg : GrammarInUniverse Uf Up grammar :=
            hStore.1 (s, grammar) (lookup_mem hl)
          have hscan : CollectorInUniverse Uf Up (collectSpecificDependencies c grammar i) := by
            unfold collectSpecificDependencies
            cases hr : grammar.ruleDeps.lookup i with
            | none => simpa [hr] using hc
            | some ds =>
                simp only [hr, Option.getD_some]
                exact collector_foldl_universe Uf Up ds c hc
                  (fun d hd => hg.2 (i, ds) (lookup_mem hr) d hd)
          cases hi : store.injectionsFor s with
          | none =>
              rw [hi] at h
              injection h with h
              rw [← h]
              exact hscan
          | some inj =>
              rw [hi] at h
              injection h with h
              rw [← h]
              exact collector_foldl_inj_universe Uf Up inj _ hscan
                (fun x hx => hStore.2 (s, inj) (lookup_mem_inj hi) x hx)

/-- The batch collect loop on a universe-closed store keeps the collector
universe-closed. -/
theorem collectLoop_universe (Uf : List String) (Up : List (String × String))
    (store : SyncRegistryState) (initialScopeName : String)
    (hStore : StoreInUniverse Uf Up store) (q : List ScopeDependency) :
    ∀ (c c' : ScopeDependencyCollector), CollectorInUniverse Uf Up c →
      collectLoop store initialScopeName c q = .ok c' →
      CollectorInUniverse Uf Up c' := by
  induction q with
  | nil =>
      intro c c' hc h
      injection h with h
      rw [← h]
      exact hc
  | cons d rest ih =>
      intro c c' hc h
      unfold collectLoop at h
      cases hd : collectDependenciesForDep store initialScopeName c d with
      | error e =>
          rw [hd] at h
          cases h
      | ok c1 =>
          rw [hd] at h
          exact ih c1 c' (collectDep_universe Uf Up store initialScopeName c d c1 hStore hc hd) h

/-- A successful iteration preserves the loop invariant and grows the
seen-sets by exactly the size of the next frontier. -/
theorem iteration_inv_preserved (Uf : List String) (Up : List (String × String))
    (locator : RegistryOptions) (initialScopeName : String)
    (hLoc : LocatorInUniverse Uf Up locator) (st st' : LoopState)
    (hInv : LoopInv Uf Up st) (h : IterStep locator initialScopeName st st') :
    LoopInv Uf Up st' ∧
    st'.seenFullScopeRequests.length + st'.seenPartialScopeRequests.length =
      st.seenFullScopeRequests.length + st.seenPartialScopeRequests.length +
        st'.Q.length := by
  obtain ⟨deps, hcol, hreg, hsf, hsp, hq⟩ :=
    loadGrammarIteration_ok_inv locator initialScopeName st st' h
  obtain ⟨hnd1, hnd2, hsub1, hsub2, hstore⟩ := hInv
  have hstore1 : StoreInUniverse Uf Up
      (st.Q.foldl (fun r d => loadSingleGrammar locator r d.scopeName) st.reg).syncRegistry :=
    batchLoad_store_universe Uf Up locator hLoc st.Q st.reg hstore
  have hempty : CollectorInUniverse Uf Up ScopeDependencyCollector.empty := by
    constructor
    · intro x hx
      cases hx
    · intro k hk
      cases hk
  have hdeps : CollectorInUniverse Uf Up deps :=
    collectLoop_universe Uf Up _ initialScopeName hstore1 st.Q
      ScopeDependencyCollector.empty deps hempty hcol
  refine ⟨⟨?_, ?_, ?_, ?_, ?_⟩, ?_⟩
  · rw [hsf]
    exact pushFullDeps_nodup deps.full _ _ hnd1
  · rw [hsp]
    exact pushPartialDeps_nodup _ deps.partialDeps _ _ hnd2
  · rw [hsf]
    exact pushFullDeps_sub Uf deps.full _ _ hdeps.1 hsub1
  · rw [hsp]
    exact pushPartialDeps_sub Up _ deps.partialDeps _ _ hdeps.2 hsub2
  · rw [hreg]
    exact hstore1
  · have e1 := pushFullDeps_len deps.full st.seenFullScopeRequests []
    have e2 := pushPartialDeps_len (pushFullDeps deps.full st.seenFullScopeRequests []).1
      deps.partialDeps st.seenPartialScopeRequests
      (pushFullDeps deps.full st.seenFullScopeRequests []).2
    rw [hsf, hsp, hq]
    simp only [List.length_nil] at e1
    omega

/-- With fuel exceeding the size of the key universe not yet seen, the
`_loadGrammar` loop never runs out of fuel: it ends in a success or an error,
not in divergence. -/
theorem loadGrammarLoop_total (Uf : List String) (Up : List (String × String))
    (locator : RegistryOptions) (initialScopeName : String)
    (hLoc : LocatorInUniverse Uf Up locator) :
    ∀ (fuel : Nat) (st : LoopState), LoopInv Uf Up st →
      Uf.toFinset.card + Up.toFinset.card + 1 ≤
        st.seenFullScopeRequests.length + st.seenPartialScopeRequests.length + fuel →
      loadGrammarLoop locator initialScopeName fuel st ≠ none := by
  intro fuel
  induction fuel with
  | zero =>
      intro st hInv hN
      have b1 : st.seenFullScopeRequests.length ≤ Uf.toFinset.card := by
        rw [← List.toFinset_card_of_nodup hInv.1]
        exact Finset.card_le_card
          (fun a ha => List.mem_toFinset.mpr (hInv.2.2.1 a (List.mem_toFinset.mp ha)))
      have b2 : st.seenPartialScopeRequests.length ≤ Up.toFinset.card := by
        rw [← List.toFinset_card_of_nodup hInv.2.1]
        exact Finset.card_le_card
          (fun a ha => List.mem_toFinset.mpr (hInv.2.2.2.1 a (List.mem_toFinset.mp ha)))
      exact absurd hN (by omega)
  | succ fuel ih =>
      intro st hInv hN
      unfold loadGrammarLoop
      cases hqe : st.Q.isEmpty
      · simp only [Bool.false_eq_true, if_false]
        cases hIter : loadGrammarIteration locator initialScopeName st with
        | error e => simp
        | ok st' =>
            obtain ⟨hInv', hlen⟩ := iteration_inv_preserved Uf Up locator initialScopeName
              hLoc st st' hInv hIter
            cases hq' : st'.Q with
            | nil =>
                cases fuel <;> simp [loadGrammarLoop, hq']
            | cons d rest =>
                apply ih st' hInv'
                have hql : st'.Q.length = rest.length + 1 := by
                  rw [hq']
                  simp
                omega
      · simp

/-- C3: the fixpoint loop of `_loadGrammar` terminates for every dependency
graph, cyclic ones included — each iteration enqueues only scope names and
`(scopeName, includePath)` keys absent from the append-only seen-sets, and all
keys live in the finite universe `(Uf, Up)` spanned by the reachable grammars,
so with fuel `|Uf| + |Up| + 1` the loop never runs out: it ends in a success
or a fatal error after finitely many iterations. -/
theorem loadGrammar_terminates (locator : RegistryOptions) (reg : RegistryState)
    (initialScopeName : String) (Uf : List String) (Up : List (String × String))
    (hInit : initialScopeName ∈ Uf)
    (hStore : StoreInUniverse Uf Up reg.syncRegistry)
    (hLoc : LocatorInUniverse Uf Up locator) :
    loadGrammarRun locator reg initialScopeName (Uf.length + Up.length + 1) ≠ none := by
  unfold loadGrammarRun
  apply loadGrammarLoop_total Uf Up locator initialScopeName hLoc
  · refine ⟨List.nodup_singleton _, List.nodup_nil, ?_, ?_, hStore⟩
    · intro s hs
      rw [List.mem_singleton.mp hs]
      exact hInit
    · intro k hk
      cases hk
  · have c1 : Uf.toFinset.card ≤ Uf.length := List.toFinset_card_le Uf
    have c2 : Up.toFinset.card ≤ Up.length := List.toFinset_card_le Up
    simp only [initLoopState, List.length_singleton, List.length_nil]
    omega

/-- Witness for C3: the dependency cycle `a → b → a` resolves — the loop
terminates within the universe bound, the run succeeds, and each of `a` and
`b` is fetched exactly once. -/
theorem loadGrammar_terminates_witness :
    ("a" ∈ ["a", "b"]) ∧
    StoreInUniverse ["a", "b"] [] RegistryState.init.syncRegistry ∧
    LocatorInUniverse ["a", "b"] [] locAB ∧
    loadGrammarRun locAB RegistryState.init "a" (["a", "b"].length + ([] : List (String × String)).length + 1) ≠ none ∧
    isOk (loadGrammarRun locAB RegistryState.init "a" 3) = true ∧
    loadCountAfter (loadGrammarRun locAB RegistryState.init "a" 3) "a" = 1 ∧
    loadCountAfter (loadGrammarRun locAB RegistryState.init "a" 3) "b" = 1 := by
  have hInit : "a" ∈ ["a", "b"] := by decide
  have hStore : StoreInUniverse ["a", "b"] [] RegistryState.init.syncRegistry := by
    constructor
    · intro p hp
      cases hp
    · intro p hp
      cases hp
  have hLoc : LocatorInUniverse ["a", "b"] [] locAB := by
    constructor
    · intro s g h
      simp only [locAB] at h
      by_cases h1 : s = "a"
      · rw [if_pos h1] at h
        injection h with h
        rw [← h]
        constructor
        · intro d hd
          rw [show gA.allDeps = [ScopeDependency.full "b"] from rfl] at hd
          rw [List.mem_singleton.mp hd]
          show "b" ∈ ["a", "b"]
          decide
        · intro p hp
          rw [show gA.ruleDeps = [] from rfl] at hp
          cases hp
      · rw [if_neg h1] at h
        by_cases h2 : s = "b"
        · rw [if_pos h2] at h
          injection h with h
          rw [← h]
          constructor
          · intro d hd
            rw [show gB.allDeps = [ScopeDependency.full "a"] from rfl] at hd
            rw [List.mem_singleton.mp hd]
            show "a" ∈ ["a", "b"]
            decide
          · intro p hp
            rw [show gB.ruleDeps = [] from rfl] at hp
            cases hp
        · rw [if_neg h2] at h
          cases h
    · intro f hf
      cases hf
  refine ⟨hInit, hStore, hLoc,
    loadGrammar_terminates locAB RegistryState.init "a" ["a", "b"] [] hInit hStore hLoc,
    by decide, by decide, by decide⟩

/-- C8: for a dependency whose grammar is present in the store,
`_collectDependenciesForDep` runs the whole-grammar scan for a full dependency
and the subtree scan at the dependency's include path for a partial one, in
both cases followed by adding a full dependency for every scope in the store's
injection list for that scope; consequently — as the accompanying run shows —
an injection scope declared by two visited grammars is enqueued and loaded
exactly once. -/
theorem collectDep_present_branch (store : SyncRegistryState) (initialScopeName : String)
    (result : ScopeDependencyCollector) (s includePath : String) (grammar : RawGrammar)
    (hlook : store.lookup s = some grammar) :
    (collectDependenciesForDep store initialScopeName result (.full s) =
      .ok (addInjections store s (collectDependencies result grammar))) ∧
    (collectDependenciesForDep store initialScopeName result (.part s includePath) =
      .ok (addInjections store s (collectSpecificDependencies result grammar includePath))) ∧
    isOk (loadGrammarRun locInj RegistryState.init "a" 4) = true ∧
    loadCountAfter (loadGrammarRun locInj RegistryState.init "a" 4) "x" = 1 := by
  refine ⟨?_, ?_, by decide, by decide⟩
  · cases hi : store.injectionsFor s with
    | none =>
        simp [collectDependenciesForDep, ScopeDependency.scopeName, hlook, hi, addInjections]
    | some inj =>
        simp [collectDependenciesForDep, ScopeDependency.scopeName, hlook, hi, addInjections]
  · cases hi : store.injectionsFor s with
    | none =>
        simp [collectDependenciesForDep, ScopeDependency.scopeName, hlook, hi, addInjections]
    | some inj =>
        simp [collectDependenciesForDep, ScopeDependency.scopeName, hlook, hi, addInjections]

/-- Witness for C8: the present-grammar branch evaluated on the registered
grammar `z` of the `stW` fixture. -/
theorem collectDep_present_branch_witness :
    (stW.syncRegistry.lookup "z" = some gZ) ∧
    (collectDependenciesForDep stW.syncRegistry "init" ScopeDependencyCollector.empty
        (.full "z") =
      .ok (addInjections stW.syncRegistry "z"
        (collectDependencies ScopeDependencyCollector.empty gZ))) ∧
    (collectDependenciesForDep stW.syncRegistry "init" ScopeDependencyCollector.empty
        (.part "z" "r") =
      .ok (addInjections stW.syncRegistry "z"
        (collectSpecificDependencies ScopeDependencyCollector.empty gZ "r"))) :=
  ⟨by decide,
   (collectDep_present_branch stW.syncRegistry "init" ScopeDependencyCollector.empty
      "z" "r" gZ (by decide)).1,
   (collectDep_present_branch stW.syncRegistry "init" ScopeDependencyCollector.empty
      "z" "r" gZ (by decide)).2.1⟩
